import Mathlib

/-
Verification of the theatre actor library (src/lib.rs).

The library spawns one OS worker thread per actor.  The worker owns the
Receiver end of an mpsc channel carrying Option M values: some m is a user
message enqueued by tell, none is the stop marker enqueued by kill.  A shared
AtomicBool should_die and a Mutex bool is_dead (with a Condvar) complete the
shared state.  We give the system a sequentially consistent interleaving
semantics: a global configuration plus a step relation in which either a
client holding a live handle acts (tell, kill, dropping every handle) or the
worker thread performs one step of its code.
-/

namespace Theatre

/-- Error enum ActingErr from the source; the only variant is DeadActor. -/
inductive ActingErr : Type where
  | deadActor
deriving DecidableEq

/-- Shutdown mode, fixed at construction: Actor::graceful spawns a worker that
runs cleanup (draining the mailbox) after leaving the main loop, while
Actor::disgraceful spawns a worker that skips cleanup. -/
inductive Mode : Type where
  | graceful
  | disgraceful
deriving DecidableEq

/-- Program counter of the worker closure.  running is the loop inside
loop_until_killed; cleanup is the try_recv loop of the cleanup function, which
only graceful workers execute; dying is the point where the loop (and, for
graceful workers, the drain) has finished but die has not yet completed; dead
means die has run, so is_dead was set under the mutex and all waiters were
notified, and the Sender held by the worker own Actor value was dropped;
exited means the closure returned, dropping the Receiver. -/
inductive Phase : Type where
  | running
  | cleanup
  | dying
  | dead
  | exited
deriving DecidableEq

/-- Global state of one actor and its clients.

Fields taken from the source: mailbox is the queue of the mpsc channel, in
FIFO order, holding Option M values exactly as the Rust code does; shouldDie
is the should_die AtomicBool; isDead is the is_dead Mutex bool; phase is the
worker program counter; mode records which constructor built the actor;
userSendersAlive records whether at least one user-held Actor handle, hence at
least one user-held Sender clone, is still alive; workerSenderAlive records
whether the Sender inside the Actor value that was moved into the worker
closure is still alive (it is dropped inside die); receiverAlive records
whether the Receiver still exists (it is dropped when the closure returns,
strictly after die has completed).

Ghost history fields, not present in the Rust struct, recording the visible
history of the run: trace is the sequence of messages passed to
Interpreter::interpret so far, in call order; told is the sequence of payloads
of all successful tell calls, in enqueue order; toldPre is the subsequence of
told that was enqueued while shouldDie was still false, that is, before the
first kill call. -/
structure Config (M : Type) where
  mode : Mode
  phase : Phase
  mailbox : List (Option M)
  shouldDie : Bool
  isDead : Bool
  userSendersAlive : Bool
  workerSenderAlive : Bool
  receiverAlive : Bool
  trace : List M
  told : List M
  toldPre : List M
deriving DecidableEq

/-- State of a freshly constructed actor, from Actor::graceful and
Actor::disgraceful: empty mailbox, should_die false, is_dead false, a worker
entering loop_until_killed, and every channel endpoint alive. -/
def initConfig {M : Type} (mode : Mode) : Config M :=
  { mode := mode
    phase := Phase.running
    mailbox := []
    shouldDie := false
    isDead := false
    userSendersAlive := true
    workerSenderAlive := true
    receiverAlive := true
    trace := []
    told := []
    toldPre := [] }

/-- Actor::tell: channel.send(Some(message)) with the failure mapped to
ActingErr::DeadActor.  An mpsc send fails exactly when the Receiver has been
dropped; on success the message is appended to the queue.  The ghost fields
told and toldPre record the successful enqueue. -/
def tellFn {M : Type} (c : Config M) (m : M) : Config M × Except ActingErr Unit :=
  if c.receiverAlive then
    ({ c with
        mailbox := c.mailbox ++ [some m]
        told := c.told ++ [m]
        toldPre := if c.shouldDie then c.toldPre else c.toldPre ++ [m] },
      Except.ok ())
  else
    (c, Except.error ActingErr.deadActor)

/-- Actor::kill: store true into should_die, then a best-effort
channel.send(None); a send failure, which happens exactly when the Receiver is
gone, is silently ignored.  The function is total and returns no error. -/
def killFn {M : Type} (c : Config M) : Config M :=
  let c1 : Config M := { c with shouldDie := true }
  if c1.receiverAlive then { c1 with mailbox := c1.mailbox ++ [none] } else c1

/-- Leaving the main loop of loop_until_killed: a graceful worker proceeds to
the cleanup drain, a disgraceful worker proceeds directly towards die. -/
def breakLoop {M : Type} (c : Config M) : Config M :=
  match c.mode with
  | Mode.graceful => { c with phase := Phase.cleanup }
  | Mode.disgraceful => { c with phase := Phase.dying }

/-- One step of the worker thread; none means the worker is blocked (the recv
call sleeps on an empty mailbox while some Sender is still alive) or has
already exited.

In running, one iteration of the loop in loop_until_killed: first the
should_die check, then recv, which pops the oldest queue entry: a user message
is passed to interpret, a none stop marker breaks the loop, and a RecvError,
which requires an empty queue with every Sender dropped, also breaks the loop.

In cleanup, one iteration of the try_recv loop of cleanup: a pending user
message is passed to interpret, a none stop marker is discarded and the loop
continues, and an empty queue ends the loop whether or not senders remain,
since try_recv then returns an error either way.

In dying, the body of die: the worker drops its own Actor value, releasing its
Sender, sets is_dead to true under the mutex and notifies all waiters.

In dead, the closure returns, dropping the Receiver. -/
def workerStep {M : Type} (c : Config M) : Option (Config M) :=
  match c.phase with
  | Phase.running =>
      if c.shouldDie then some (breakLoop c)
      else
        match c.mailbox with
        | some m :: rest => some { c with mailbox := rest, trace := c.trace ++ [m] }
        | none :: rest => some (breakLoop { c with mailbox := rest })
        | [] =>
            if c.userSendersAlive || c.workerSenderAlive then none
            else some (breakLoop c)
  | Phase.cleanup =>
      match c.mailbox with
      | some m :: rest => some { c with mailbox := rest, trace := c.trace ++ [m] }
      | none :: rest => some { c with mailbox := rest }
      | [] => some { c with phase := Phase.dying }
  | Phase.dying =>
      some { c with phase := Phase.dead, isDead := true, workerSenderAlive := false }
  | Phase.dead =>
      some { c with phase := Phase.exited, receiverAlive := false }
  | Phase.exited => none

/-- Iterate workerStep a given number of times, stopping early if the worker
is blocked or has exited. -/
def iterateWorker {M : Type} : Nat → Config M → Config M
  | 0, c => c
  | n + 1, c =>
      match workerStep c with
      | some c2 => iterateWorker n c2
      | none => c

/-- The loop inside Actor::wait, namely: lock is_dead, then while the guard is
false, block on the condition variable and recheck on wakeup.  The argument
lists the values of is_dead observed at the initial lock acquisition and at
each subsequent wakeup; the result is the number of condition-variable blocks
before wait returns, or none if no listed observation is true, in which case
the caller is still blocked past the whole observation list. -/
def waitLoop : List Bool → Option Nat
  | [] => none
  | g :: rest => if g then some 0 else (waitLoop rest).map (· + 1)

/-- Actor::suicidal in this revision is the unimplemented macro: calling it
unconditionally panics, modelled as an Except.error, and never produces an
actor configuration. -/
def suicidal (M : Type) : Except String (Config M) :=
  Except.error "not implemented"

/-- xs is an initial segment of ys. -/
def PrefixOf {α : Type} (xs ys : List α) : Prop :=
  ∃ t, xs ++ t = ys

/-- Interleaving semantics: at any moment either a client holding a live
handle calls tell or kill, or every user handle is dropped at once, or the
worker thread performs one step. -/
inductive Step {M : Type} : Config M → Config M → Prop where
  | tell (c : Config M) (m : M) (h : c.userSendersAlive = true) :
      Step c (tellFn c m).1
  | kill (c : Config M) (h : c.userSendersAlive = true) :
      Step c (killFn c)
  | dropHandles (c : Config M) :
      Step c { c with userSendersAlive := false }
  | worker (c c2 : Config M) (h : workerStep c = some c2) :
      Step c c2

/-- Configurations reachable from a freshly spawned actor of a given mode. -/
def Reachable {M : Type} (mode : Mode) (c : Config M) : Prop :=
  Relation.ReflTransGen Step (initConfig mode) c

/-- Concrete run of a graceful actor used as a sample execution: the state
after tell 5 on a fresh actor. -/
def cg1 : Config Nat :=
  { mode := Mode.graceful, phase := Phase.running, mailbox := [some 5]
    shouldDie := false, isDead := false, userSendersAlive := true
    workerSenderAlive := true, receiverAlive := true
    trace := [], told := [5], toldPre := [5] }

/-- Sample graceful run, after kill. -/
def cg2 : Config Nat :=
  { cg1 with shouldDie := true, mailbox := [some 5, none] }

/-- Sample graceful run, after the worker observed the flag and left the main
loop. -/
def cg3 : Config Nat :=
  { cg2 with phase := Phase.cleanup }

/-- Sample graceful run, after the drain interpreted the pending message. -/
def cg4 : Config Nat :=
  { cg3 with mailbox := [none], trace := [5] }

/-- Sample graceful run, after the drain discarded the stop marker. -/
def cg5 : Config Nat :=
  { cg4 with mailbox := [] }

/-- Sample graceful run, after the drain found the queue empty. -/
def cg6 : Config Nat :=
  { cg5 with phase := Phase.dying }

/-- Sample graceful run, after die completed. -/
def cg7 : Config Nat :=
  { cg6 with phase := Phase.dead, isDead := true, workerSenderAlive := false }

/-- Sample graceful run, after the worker closure returned. -/
def cg8 : Config Nat :=
  { cg7 with phase := Phase.exited, receiverAlive := false }

/-- Concrete run of a disgraceful actor: the state after tell 3 on a fresh
actor. -/
def cd1 : Config Nat :=
  { mode := Mode.disgraceful, phase := Phase.running, mailbox := [some 3]
    shouldDie := false, isDead := false, userSendersAlive := true
    workerSenderAlive := true, receiverAlive := true
    trace := [], told := [3], toldPre := [3] }

/-- Sample disgraceful run, after kill. -/
def cd2 : Config Nat :=
  { cd1 with shouldDie := true, mailbox := [some 3, none] }

/-- Sample disgraceful run, after the worker observed the flag: it heads for
die with the queue contents, message 3 included, never read. -/
def cd3 : Config Nat :=
  { cd2 with phase := Phase.dying }

/-- Sample disgraceful run, after die completed; the pending messages were
discarded unread. -/
def cd4 : Config Nat :=
  { cd3 with phase := Phase.dead, isDead := true, workerSenderAlive := false }

/-- Sample disgraceful run, after the worker closure returned. -/
def cd5 : Config Nat :=
  { cd4 with phase := Phase.exited, receiverAlive := false }

/-- State reached by spawning a disgraceful actor and dropping every user
handle at once, with no tell and no kill: this is what wait leaves behind
after consuming the last handle. -/
def lockedConfig : Config Nat :=
  { initConfig Mode.disgraceful with userSendersAlive := false }

/-- A graceful worker mid-drain with two user messages and one stop marker
still pending, used to exercise the cleanup loop. -/
def drainDemo : Config Nat :=
  { mode := Mode.graceful, phase := Phase.cleanup, mailbox := [some 1, none, some 2]
    shouldDie := true, isDead := false, userSendersAlive := true
    workerSenderAlive := true, receiverAlive := true
    trace := [0], told := [0, 1, 2], toldPre := [0] }

/-- Inductive invariant of the system.  The field conserve is the conservation
law tying the ghost history to the queue: the interpreted trace followed by
the user messages still pending equals the full told sequence.  The remaining
fields pin down the lifecycle: toldPre tracks told until the first kill and
stays a prefix of it afterwards; a none stop marker can only sit in the queue
once should_die is set; the worker keeps its own Sender, and the Receiver
stays alive, until the respective drop points; is_dead holds exactly in the
dead and exited phases; the worker leaves running only with should_die set,
since its own live Sender makes the RecvError branch unreachable; disgraceful
workers never enter cleanup; and for graceful workers, once the drain is over
the pre-kill told sequence has been fully interpreted. -/
structure Inv {M : Type} (c : Config M) : Prop where
  conserve : c.trace ++ c.mailbox.filterMap id = c.told
  preAll : c.shouldDie = false → c.toldPre = c.told
  preOf : PrefixOf c.toldPre c.told
  stopFlag : (none : Option M) ∈ c.mailbox → c.shouldDie = true
  senderLive : c.phase = Phase.running ∨ c.phase = Phase.cleanup ∨ c.phase = Phase.dying →
    c.workerSenderAlive = true
  recvLive : c.receiverAlive = false ↔ c.phase = Phase.exited
  deadPhase : c.isDead = true ↔ (c.phase = Phase.dead ∨ c.phase = Phase.exited)
  flagSet : c.phase ≠ Phase.running → c.shouldDie = true
  noCleanupDis : c.mode = Mode.disgraceful → c.phase ≠ Phase.cleanup
  donePre : c.mode = Mode.graceful →
    (c.phase = Phase.dying ∨ c.phase = Phase.dead ∨ c.phase = Phase.exited) →
    PrefixOf c.toldPre c.trace

/-- The initial configuration satisfies the invariant. -/
theorem inv_init {M : Type} (mode : Mode) : Inv (initConfig (M := M) mode) := by
  constructor <;> simp [initConfig, PrefixOf]

/-- Full case analysis of one worker step. -/
theorem workerStep_cases {M : Type} (c c2 : Config M) (h : workerStep c = some c2) :
    (c.phase = Phase.running ∧ c.shouldDie = true ∧ c2 = breakLoop c) ∨
    (c.phase = Phase.running ∧ c.shouldDie = false ∧
      ∃ m rest, c.mailbox = some m :: rest ∧
        c2 = { c with mailbox := rest, trace := c.trace ++ [m] }) ∨
    (c.phase = Phase.running ∧ c.shouldDie = false ∧
      ∃ rest, c.mailbox = none :: rest ∧ c2 = breakLoop { c with mailbox := rest }) ∨
    (c.phase = Phase.running ∧ c.shouldDie = false ∧ c.mailbox = [] ∧
      c.userSendersAlive = false ∧ c.workerSenderAlive = false ∧ c2 = breakLoop c) ∨
    (c.phase = Phase.cleanup ∧
      ∃ m rest, c.mailbox = some m :: rest ∧
        c2 = { c with mailbox := rest, trace := c.trace ++ [m] }) ∨
    (c.phase = Phase.cleanup ∧
      ∃ rest, c.mailbox = none :: rest ∧ c2 = { c with mailbox := rest }) ∨
    (c.phase = Phase.cleanup ∧ c.mailbox = [] ∧ c2 = { c with phase := Phase.dying }) ∨
    (c.phase = Phase.dying ∧
      c2 = { c with phase := Phase.dead, isDead := true, workerSenderAlive := false }) ∨
    (c.phase = Phase.dead ∧
      c2 = { c with phase := Phase.exited, receiverAlive := false }) := by
  cases hph : c.phase
  case running =>
    rw [workerStep, hph] at h
    cases hsd : c.shouldDie
    case true =>
      simp only [hsd, if_true] at h
      exact Or.inl ⟨rfl, rfl, (Option.some.inj h).symm⟩
    case false =>
      simp only [hsd, Bool.false_eq_true, if_false] at h
      cases hmb : c.mailbox
      case nil =>
        rw [hmb] at h
        cases hu : c.userSendersAlive <;> cases hw : c.workerSenderAlive <;>
          simp only [hu, hw, Bool.or_self, Bool.or_true, Bool.true_or, if_true,
            if_false, Bool.false_or, Bool.true_eq_false, reduceCtorEq] at h
        exact Or.inr (Or.inr (Or.inr (Or.inl
          ⟨rfl, rfl, rfl, rfl, rfl, (Option.some.inj h).symm⟩)))
      case cons hd tl =>
        rw [hmb] at h
        cases hd
        case none =>
          exact Or.inr (Or.inr (Or.inl ⟨rfl, rfl, tl, rfl, (Option.some.inj h).symm⟩))
        case some m =>
          exact Or.inr (Or.inl ⟨rfl, rfl, m, tl, rfl, (Option.some.inj h).symm⟩)
  case cleanup =>
    rw [workerStep, hph] at h
    cases hmb : c.mailbox
    case nil =>
      rw [hmb] at h
      exact Or.inr (Or.inr (Or.inr (Or.inr (Or.inr (Or.inr (Or.inl
        ⟨rfl, rfl, (Option.some.inj h).symm⟩))))))
    case cons hd tl =>
      rw [hmb] at h
      cases hd
      case none =>
        exact Or.inr (Or.inr (Or.inr (Or.inr (Or.inr (Or.inl
          ⟨rfl, tl, rfl, (Option.some.inj h).symm⟩)))))
      case some m =>
        exact Or.inr (Or.inr (Or.inr (Or.inr (Or.inl
          ⟨rfl, m, tl, rfl, (Option.some.inj h).symm⟩))))
  case dying =>
    rw [workerStep, hph] at h
    exact Or.inr (Or.inr (Or.inr (Or.inr (Or.inr (Or.inr (Or.inr (Or.inl
      ⟨rfl, (Option.some.inj h).symm⟩)))))))
  case dead =>
    rw [workerStep, hph] at h
    exact Or.inr (Or.inr (Or.inr (Or.inr (Or.inr (Or.inr (Or.inr (Or.inr
      ⟨rfl, (Option.some.inj h).symm⟩)))))))
  case exited =>
    rw [workerStep, hph] at h
    exact absurd h (by simp)

theorem prefixOf_refl {α : Type} (xs : List α) : PrefixOf xs xs :=
  ⟨[], by simp⟩

theorem prefixOf_append {α : Type} (xs ys zs : List α) (h : PrefixOf xs ys) :
    PrefixOf xs (ys ++ zs) := by
  obtain ⟨t, ht⟩ := h
  exact ⟨t ++ zs, by rw [← List.append_assoc, ht]⟩

/-- A successful or failing tell preserves the invariant. -/
theorem inv_tell {M : Type} (c : Config M) (m : M) (h : Inv c) : Inv (tellFn c m).1 := by
  obtain ⟨mo, ph, mb, sd, dd, us, ws, ra, tr, td, tp⟩ := c
  obtain ⟨hcons, hpreAll, hpreOf, hstop, hsender, hrecv, hdead, hflag, hnoCl, hdone⟩ := h
  dsimp only at hcons hpreAll hpreOf hstop hsender hrecv hdead hflag hnoCl hdone
  cases ra
  case false =>
    exact ⟨hcons, hpreAll, hpreOf, hstop, hsender, hrecv, hdead, hflag, hnoCl, hdone⟩
  case true =>
    simp only [tellFn, if_true]
    constructor <;> dsimp only
    · simp only [List.filterMap_append, List.filterMap_cons, id, List.filterMap_nil]
      rw [← List.append_assoc, hcons]
    · intro hsd
      subst hsd
      simp only [Bool.false_eq_true, if_false]
      rw [hpreAll rfl]
    · cases sd
      · simp only [Bool.false_eq_true, if_false]
        rw [hpreAll rfl]
        exact prefixOf_refl _
      · simp only [if_true]
        exact prefixOf_append _ _ _ hpreOf
    · intro hmem
      simp only [List.mem_append, List.mem_singleton] at hmem
      rcases hmem with hmem | hmem
      · exact hstop hmem
      · exact absurd hmem (by simp)
    · exact hsender
    · exact hrecv
    · exact hdead
    · exact hflag
    · exact hnoCl
    · intro hg hp
      have hnr : ph ≠ Phase.running := by
        rcases hp with hp | hp | hp <;> simp [hp]
      have hsd : sd = true := hflag hnr
      subst hsd
      simp only [if_true]
      exact hdone hg hp

/-- kill preserves the invariant. -/
theorem inv_kill {M : Type} (c : Config M) (h : Inv c) : Inv (killFn c) := by
  obtain ⟨mo, ph, mb, sd, dd, us, ws, ra, tr, td, tp⟩ := c
  obtain ⟨hcons, hpreAll, hpreOf, hstop, hsender, hrecv, hdead, hflag, hnoCl, hdone⟩ := h
  dsimp only at hcons hpreAll hpreOf hstop hsender hrecv hdead hflag hnoCl hdone
  cases ra
  case false =>
    simp only [killFn, Bool.false_eq_true, if_false]
    constructor <;> dsimp only
    · exact hcons
    · intro hsd
      exact absurd hsd (by simp)
    · exact hpreOf
    · intro _
      rfl
    · exact hsender
    · exact hrecv
    · exact hdead
    · intro _
      rfl
    · exact hnoCl
    · exact hdone
  case true =>
    simp only [killFn, if_true]
    constructor <;> dsimp only
    · simp only [List.filterMap_append, List.filterMap_cons, id, List.filterMap_nil,
        List.append_nil]
      exact hcons
    · intro hsd
      exact absurd hsd (by simp)
    · exact hpreOf
    · intro _
      rfl
    · exact hsender
    · exact hrecv
    · exact hdead
    · intro _
      rfl
    · exact hnoCl
    · exact hdone

theorem filterMap_id_cons_some {α : Type} (m : α) (l : List (Option α)) :
    List.filterMap id (some m :: l) = m :: List.filterMap id l := by
  simp

theorem filterMap_id_cons_none {α : Type} (l : List (Option α)) :
    List.filterMap id (none :: l) = List.filterMap id l := by
  simp

/-- One worker step preserves the invariant. -/
theorem inv_worker {M : Type} (c c2 : Config M) (hI : Inv c)
    (hw : workerStep c = some c2) : Inv c2 := by
  obtain ⟨mo, ph, mb, sd, dd, us, ws, ra, tr, td, tp⟩ := c
  obtain ⟨hcons, hpreAll, hpreOf, hstop, hsender, hrecv, hdead, hflag, hnoCl, hdone⟩ := hI
  dsimp only at hcons hpreAll hpreOf hstop hsender hrecv hdead hflag hnoCl hdone
  rcases workerStep_cases _ _ hw with
    ⟨hph, hsd, hc2⟩ | ⟨hph, hsd, m, rest, hmb, hc2⟩ | ⟨hph, hsd, rest, hmb, hc2⟩ |
    ⟨hph, hsd, hmb, hus, hws, hc2⟩ | ⟨hph, m, rest, hmb, hc2⟩ | ⟨hph, rest, hmb, hc2⟩ |
    ⟨hph, hmb, hc2⟩ | ⟨hph, hc2⟩ | ⟨hph, hc2⟩
  -- running, flag set: break out of the main loop
  · dsimp only at hph hsd
    subst hph
    subst hsd
    have hra : ra = true := by
      cases ra
      · cases hrecv.mp rfl
      · rfl
    subst hra
    have hws : ws = true := hsender (Or.inl rfl)
    subst hws
    have hdd : dd = false := by
      cases dd
      · rfl
      · rcases hdead.mp rfl with hh | hh <;> cases hh
    subst hdd
    cases mo <;> dsimp only [breakLoop] at hc2 <;> subst hc2 <;> constructor <;> dsimp only
    · exact hcons
    · intro hh
      cases hh
    · exact hpreOf
    · intro _
      rfl
    · intro _
      rfl
    · constructor
      · intro hh
        cases hh
      · intro hh
        cases hh
    · constructor
      · intro hh
        cases hh
      · intro hh
        rcases hh with hh | hh <;> cases hh
    · intro _
      rfl
    · intro hh
      cases hh
    · intro _ hp
      rcases hp with hp | hp | hp <;> cases hp
    · exact hcons
    · intro hh
      cases hh
    · exact hpreOf
    · intro _
      rfl
    · intro _
      rfl
    · constructor
      · intro hh
        cases hh
      · intro hh
        cases hh
    · constructor
      · intro hh
        cases hh
      · intro hh
        rcases hh with hh | hh <;> cases hh
    · intro _
      rfl
    · intro _ hh
      cases hh
    · intro hh
      cases hh
  -- running, flag unset, a user message at the head: interpret it
  · dsimp only at hph hsd hmb
    subst hph
    subst hsd
    subst hmb
    subst hc2
    constructor <;> dsimp only
    · rw [filterMap_id_cons_some] at hcons
      simpa [List.append_assoc] using hcons
    · exact hpreAll
    · exact hpreOf
    · intro hm
      exact hstop (List.mem_cons_of_mem _ hm)
    · exact hsender
    · exact hrecv
    · exact hdead
    · intro hh
      exact absurd rfl hh
    · intro _
      intro hh
      cases hh
    · intro _ hp
      rcases hp with hp | hp | hp <;> cases hp
  -- running, flag unset, a stop marker at the head: impossible, the marker
  -- is only enqueued after the flag was stored
  · dsimp only at hph hsd hmb
    subst hmb
    have : sd = true := hstop (List.mem_cons_self _ _)
    rw [this] at hsd
    cases hsd
  -- running, RecvError: impossible, the worker still holds its own Sender
  · dsimp only at hws
    have : ws = true := hsender (by dsimp only at hph; simp [hph])
    rw [this] at hws
    cases hws
  -- cleanup, a user message at the head: interpret it
  · dsimp only at hph hmb
    subst hph
    subst hmb
    subst hc2
    constructor <;> dsimp only
    · rw [filterMap_id_cons_some] at hcons
      simpa [List.append_assoc] using hcons
    · exact hpreAll
    · exact hpreOf
    · intro hm
      exact hstop (List.mem_cons_of_mem _ hm)
    · exact hsender
    · exact hrecv
    · exact hdead
    · exact hflag
    · exact hnoCl
    · intro _ hp
      rcases hp with hp | hp | hp <;> cases hp
  -- cleanup, a stop marker at the head: discard it
  · dsimp only at hph hmb
    subst hph
    subst hmb
    subst hc2
    constructor <;> dsimp only
    · rw [filterMap_id_cons_none] at hcons
      exact hcons
    · exact hpreAll
    · exact hpreOf
    · intro hm
      exact hstop (List.mem_cons_of_mem _ hm)
    · exact hsender
    · exact hrecv
    · exact hdead
    · exact hflag
    · exact hnoCl
    · intro _ hp
      rcases hp with hp | hp | hp <;> cases hp
  -- cleanup, empty queue: the drain is over, proceed to die
  · dsimp only at hph hmb
    subst hph
    subst hmb
    subst hc2
    have hra : ra = true := by
      cases ra
      · cases hrecv.mp rfl
      · rfl
    subst hra
    have htr : tr = td := by
      simpa using hcons
    constructor <;> dsimp only
    · simpa using hcons
    · exact hpreAll
    · exact hpreOf
    · intro hm
      cases hm
    · intro _
      exact hsender (Or.inr (Or.inl rfl))
    · constructor
      · intro hh
        cases hh
      · intro hh
        cases hh
    · constructor
      · intro hh
        have := hdead.mp hh
        rcases this with hh2 | hh2 <;> cases hh2
      · intro hh
        rcases hh with hh | hh <;> cases hh
    · intro _
      exact hflag (by intro hh; cases hh)
    · intro _
      intro hh
      cases hh
    · intro _ _
      rw [htr]
      exact hpreOf
  -- dying: die runs, setting is_dead and notifying the waiters
  · dsimp only at hph
    subst hph
    subst hc2
    have hra : ra = true := by
      cases ra
      · cases hrecv.mp rfl
      · rfl
    subst hra
    have hsd : sd = true := hflag (by intro hh; cases hh)
    subst hsd
    constructor <;> dsimp only
    · exact hcons
    · intro hh
      cases hh
    · exact hpreOf
    · intro _
      rfl
    · intro hp
      rcases hp with hp | hp | hp <;> cases hp
    · constructor
      · intro hh
        cases hh
      · intro hh
        cases hh
    · constructor
      · intro _
        exact Or.inl rfl
      · intro _
        rfl
    · intro _
      rfl
    · intro _
      intro hh
      cases hh
    · intro hg _
      exact hdone hg (Or.inl rfl)
  -- dead: the closure returns, dropping the Receiver
  · dsimp only at hph
    subst hph
    subst hc2
    have hsd : sd = true := hflag (by intro hh; cases hh)
    subst hsd
    have hdd : dd = true := hdead.mpr (Or.inl rfl)
    subst hdd
    constructor <;> dsimp only
    · exact hcons
    · intro hh
      cases hh
    · exact hpreOf
    · intro _
      rfl
    · intro hp
      rcases hp with hp | hp | hp <;> cases hp
    · constructor
      · intro _
        rfl
      · intro _
        rfl
    · constructor
      · intro _
        exact Or.inr rfl
      · intro _
        rfl
    · intro _
      rfl
    · intro _
      intro hh
      cases hh
    · intro hg _
      exact hdone hg (Or.inr (Or.inl rfl))

/-- Dropping every user handle preserves the invariant. -/
theorem inv_drop {M : Type} (c : Config M) (h : Inv c) :
    Inv { c with userSendersAlive := false } := by
  obtain ⟨hcons, hpreAll, hpreOf, hstop, hsender, hrecv, hdead, hflag, hnoCl, hdone⟩ := h
  exact ⟨hcons, hpreAll, hpreOf, hstop, hsender, hrecv, hdead, hflag, hnoCl, hdone⟩

/-- Every step of the interleaving semantics preserves the invariant. -/
theorem inv_step {M : Type} (c c2 : Config M) (hI : Inv c) (hs : Step c c2) : Inv c2 :=
  match c, c2, hs with
  | c, _, Step.tell c m h => inv_tell c m hI
  | c, _, Step.kill c h => inv_kill c hI
  | c, _, Step.dropHandles c => inv_drop c hI
  | c, _, Step.worker c c2 hw => inv_worker c c2 hI hw

/-- Every reachable configuration satisfies the invariant. -/
theorem reachable_inv {M : Type} (mode : Mode) (c : Config M) (h : Reachable mode c) :
    Inv c := by
  induction h with
  | refl => exact inv_init mode
  | tail _ hbc ih => exact inv_step _ _ ih hbc

theorem breakLoop_mode {M : Type} (c : Config M) : (breakLoop c).mode = c.mode := by
  obtain ⟨mo, ph, mb, sd, dd, us, ws, ra, tr, td, tp⟩ := c
  cases mo <;> rfl

/-- No step changes the construction mode. -/
theorem step_mode {M : Type} (c c2 : Config M) (hs : Step c c2) : c2.mode = c.mode :=
  match c, c2, hs with
  | c, _, Step.tell c m h => by
      by_cases hr : c.receiverAlive = true <;> simp [tellFn, hr]
  | c, _, Step.kill c h => by
      by_cases hr : c.receiverAlive = true <;> simp [killFn, hr]
  | c, _, Step.dropHandles c => rfl
  | c, _, Step.worker c c2 hw => by
      rcases workerStep_cases _ _ hw with
        ⟨_, _, hc2⟩ | ⟨_, _, m, rest, _, hc2⟩ | ⟨_, _, rest, _, hc2⟩ |
        ⟨_, _, _, _, _, hc2⟩ | ⟨_, m, rest, _, hc2⟩ | ⟨_, rest, _, hc2⟩ |
        ⟨_, _, hc2⟩ | ⟨_, hc2⟩ | ⟨_, hc2⟩ <;> subst hc2 <;>
        first
          | rfl
          | rw [breakLoop_mode]

/-- The mode of any reachable configuration is the construction mode. -/
theorem reachable_mode {M : Type} (mode : Mode) (c : Config M) (h : Reachable mode c) :
    c.mode = mode := by
  induction h with
  | refl => rfl
  | tail _ hbc ih => rw [step_mode _ _ hbc, ih]

/-- Once the worker has left both the main loop and the drain, no step grows
the trace: nothing is interpreted any more. -/
theorem step_trace_frozen {M : Type} (c c2 : Config M) (hs : Step c c2)
    (h1 : c.phase ≠ Phase.running) (h2 : c.phase ≠ Phase.cleanup) :
    c2.trace = c.trace :=
  match c, c2, hs with
  | c, _, Step.tell c m h => by
      by_cases hr : c.receiverAlive = true <;> simp [tellFn, hr]
  | c, _, Step.kill c h => by
      by_cases hr : c.receiverAlive = true <;> simp [killFn, hr]
  | c, _, Step.dropHandles c => rfl
  | c, _, Step.worker c c2 hw => by
      rcases workerStep_cases _ _ hw with
        ⟨hph, _, hc2⟩ | ⟨hph, _, m, rest, _, hc2⟩ | ⟨hph, _, rest, _, hc2⟩ |
        ⟨hph, _, _, _, _, hc2⟩ | ⟨hph, m, rest, _, hc2⟩ | ⟨hph, rest, _, hc2⟩ |
        ⟨hph, _, hc2⟩ | ⟨hph, hc2⟩ | ⟨hph, hc2⟩
      · exact absurd hph h1
      · exact absurd hph h1
      · exact absurd hph h1
      · exact absurd hph h1
      · exact absurd hph h2
      · exact absurd hph h2
      · exact absurd hph h2
      · subst hc2
        rfl
      · subst hc2
        rfl

/-- If the wait loop returned after n blocks, the observation it returned on
was a true reading of is_dead. -/
theorem waitLoop_observes_dead :
    ∀ (obs : List Bool) (n : Nat), waitLoop obs = some n → obs.getD n false = true := by
  intro obs
  induction obs with
  | nil =>
      intro n h
      exact absurd h (by simp [waitLoop])
  | cons g rest ih =>
      intro n h
      cases g
      · simp only [waitLoop, Bool.false_eq_true, if_false, Option.map_eq_some'] at h
        obtain ⟨k, hk, hn⟩ := h
        subst hn
        simpa using ih k hk
      · simp only [waitLoop, if_true, Option.some.injEq] at h
        subst h
        rfl

/-- A wait loop that only ever observes a false is_dead never returns. -/
theorem waitLoop_all_false_blocks :
    ∀ obs : List Bool, (∀ b ∈ obs, b = false) → waitLoop obs = none := by
  intro obs
  induction obs with
  | nil => intro _; rfl
  | cons g rest ih =>
      intro h
      have hg : g = false := h g (List.mem_cons_self _ _)
      subst hg
      have := ih (fun b hb => h b (List.mem_cons_of_mem _ hb))
      simp [waitLoop, this]

/-- The sample graceful run is a genuine execution of the semantics. -/
theorem reach_cg7 : Reachable Mode.graceful cg7 := by
  have h1 : Step (initConfig Mode.graceful : Config Nat) cg1 := by
    have h := Step.tell (M := Nat) (initConfig Mode.graceful) 5 rfl
    have he : (tellFn (initConfig Mode.graceful : Config Nat) 5).1 = cg1 := by decide
    rw [he] at h
    exact h
  have h2 : Step cg1 cg2 := by
    have h := Step.kill (M := Nat) cg1 rfl
    have he : killFn cg1 = cg2 := by decide
    rw [he] at h
    exact h
  have h3 : Step cg2 cg3 := Step.worker _ _ (by decide)
  have h4 : Step cg3 cg4 := Step.worker _ _ (by decide)
  have h5 : Step cg4 cg5 := Step.worker _ _ (by decide)
  have h6 : Step cg5 cg6 := Step.worker _ _ (by decide)
  have h7 : Step cg6 cg7 := Step.worker _ _ (by decide)
  exact Relation.ReflTransGen.head h1 (Relation.ReflTransGen.head h2
    (Relation.ReflTransGen.head h3 (Relation.ReflTransGen.head h4
    (Relation.ReflTransGen.head h5 (Relation.ReflTransGen.head h6
    (Relation.ReflTransGen.single h7))))))

/-- The sample graceful run extended to the point where the worker closure
has returned. -/
theorem reach_cg8 : Reachable Mode.graceful cg8 :=
  Relation.ReflTransGen.tail reach_cg7 (Step.worker _ _ (by decide))

/-- The sample disgraceful run is a genuine execution of the semantics. -/
theorem reach_cd4 : Reachable Mode.disgraceful cd4 := by
  have h1 : Step (initConfig Mode.disgraceful : Config Nat) cd1 := by
    have h := Step.tell (M := Nat) (initConfig Mode.disgraceful) 3 rfl
    have he : (tellFn (initConfig Mode.disgraceful : Config Nat) 3).1 = cd1 := by decide
    rw [he] at h
    exact h
  have h2 : Step cd1 cd2 := by
    have h := Step.kill (M := Nat) cd1 rfl
    have he : killFn cd1 = cd2 := by decide
    rw [he] at h
    exact h
  have h3 : Step cd2 cd3 := Step.worker _ _ (by decide)
  have h4 : Step cd3 cd4 := Step.worker _ _ (by decide)
  exact Relation.ReflTransGen.head h1 (Relation.ReflTransGen.head h2
    (Relation.ReflTransGen.head h3 (Relation.ReflTransGen.single h4)))

/-- The sample disgraceful run extended to the point where the worker closure
has returned. -/
theorem reach_cd5 : Reachable Mode.disgraceful cd5 :=
  Relation.ReflTransGen.tail reach_cd4 (Step.worker _ _ (by decide))

theorem iterateWorker_step {M : Type} (n : Nat) (c c2 : Config M)
    (h : workerStep c = some c2) : iterateWorker (n + 1) c = iterateWorker n c2 := by
  show (match workerStep c with
    | some c3 => iterateWorker n c3
    | none => c) = iterateWorker n c2
  rw [h]

/-- Running the worker from anywhere in the cleanup drain: every pending user
message is interpreted in queue order, every pending stop marker is
discarded, and once the queue is empty the worker dies, ending dead with
is_dead set. -/
theorem cleanup_drain {M : Type} :
    ∀ (mb : List (Option M)) (c : Config M), c.phase = Phase.cleanup → c.mailbox = mb →
    iterateWorker (mb.length + 2) c =
      { c with
        phase := Phase.dead
        mailbox := []
        trace := c.trace ++ mb.filterMap id
        isDead := true
        workerSenderAlive := false } := by
  intro mb
  induction mb with
  | nil =>
      intro c hph hmb
      obtain ⟨mo, ph, mb0, sd, dd, us, ws, ra, tr, td, tp⟩ := c
      dsimp only at hph hmb
      subst hph
      subst hmb
      simp [iterateWorker, workerStep]
  | cons hd tl ih =>
      intro c hph hmb
      obtain ⟨mo, ph, mb0, sd, dd, us, ws, ra, tr, td, tp⟩ := c
      dsimp only at hph hmb
      subst hph
      subst hmb
      cases hd
      case none =>
        refine Eq.trans (iterateWorker_step (tl.length + 2) _ _ rfl) ?_
        refine Eq.trans (ih _ rfl rfl) ?_
        simp
      case some m =>
        refine Eq.trans (iterateWorker_step (tl.length + 2) _ _ rfl) ?_
        refine Eq.trans (ih _ rfl rfl) ?_
        simp [List.append_assoc]

/-- From the stuck state left by dropping every handle of a fresh disgraceful
actor, no step at all is available except the vacuous one. -/
theorem step_from_locked (c2 : Config Nat) (hs : Step lockedConfig c2) :
    c2 = lockedConfig :=
  match hs with
  | Step.tell _ m h => by simp [lockedConfig, initConfig] at h
  | Step.kill _ h => by simp [lockedConfig, initConfig] at h
  | Step.dropHandles _ => by decide
  | Step.worker _ _ hw => by
      have h0 : workerStep lockedConfig = (none : Option (Config Nat)) := by decide
      rw [h0] at hw
      exact Option.noConfusion hw

/-- C1: for a graceful actor, every message passed to tell before kill is
passed to interpret exactly once, in the order it was enqueued, before the
actor reaches the dead state.  Formally, at any reachable dead or exited
configuration the ghost sequence of pre-kill told messages is an initial
segment of the interpreted trace (nothing dropped, and everything
interpreted before death), while the trace is itself an initial segment of
the full told sequence (no duplication and no reordering: interpretation
follows enqueue order exactly). -/
theorem graceful_interprets_pre_kill_messages_exactly_once {M : Type}
    (c : Config M) (hr : Reachable Mode.graceful c)
    (hd : c.phase = Phase.dead ∨ c.phase = Phase.exited) :
    PrefixOf c.toldPre c.trace ∧ PrefixOf c.trace c.told := by
  have hI := reachable_inv _ _ hr
  have hmo := reachable_mode _ _ hr
  refine ⟨hI.donePre hmo ?_, ⟨_, hI.conserve⟩⟩
  rcases hd with hd | hd
  · exact Or.inr (Or.inl hd)
  · exact Or.inr (Or.inr hd)

theorem graceful_interprets_pre_kill_messages_exactly_once_witness :
    PrefixOf cg7.toldPre cg7.trace ∧ PrefixOf cg7.trace cg7.told :=
  graceful_interprets_pre_kill_messages_exactly_once cg7 reach_cg7 (Or.inl rfl)

/-- C2 is refuted by the code: after spawning a disgraceful actor and
dropping every user handle, with no tell and no kill, the system is stuck.
The worker closure still owns a Sender through its own Actor value, so recv
never reports the channel closed; no state change is ever possible, is_dead
stays false forever, and a wait loop observing only a false is_dead never
returns, so wait hangs instead of returning promptly. -/
theorem all_handles_dropped_worker_never_dies :
    (∀ c : Config Nat, Relation.ReflTransGen Step lockedConfig c →
      c = lockedConfig ∧ c.isDead = false) ∧
    (∀ obs : List Bool, (∀ b ∈ obs, b = false) → waitLoop obs = none) := by
  constructor
  · intro c h
    induction h with
    | refl => exact ⟨rfl, rfl⟩
    | tail _ hbc ih =>
        obtain ⟨heq, _⟩ := ih
        subst heq
        have := step_from_locked _ hbc
        subst this
        exact ⟨rfl, rfl⟩
  · exact waitLoop_all_false_blocks

theorem all_handles_dropped_worker_never_dies_witness :
    (lockedConfig = lockedConfig ∧ lockedConfig.isDead = false) ∧
    waitLoop [false, false, false] = none :=
  ⟨all_handles_dropped_worker_never_dies.1 lockedConfig Relation.ReflTransGen.refl,
    all_handles_dropped_worker_never_dies.2 [false, false, false] (by simp)⟩

/-- C3: tell returns the DeadActor error exactly when the Receiver end of the
mailbox no longer exists; a dropped Receiver implies the actor is already
dead; and as long as the worker closure has not returned, tell succeeds and
enqueues the message as a Deliver entry at the back of the queue. -/
theorem tell_errs_iff_receiver_dropped {M : Type} (mode : Mode) (c : Config M)
    (m : M) (hr : Reachable mode c) :
    ((tellFn c m).2 = Except.error ActingErr.deadActor ↔ c.receiverAlive = false) ∧
    (c.receiverAlive = false → c.isDead = true) ∧
    (c.phase ≠ Phase.exited →
      (tellFn c m).2 = Except.ok () ∧ (tellFn c m).1.mailbox = c.mailbox ++ [some m]) := by
  have hI := reachable_inv _ _ hr
  refine ⟨⟨?_, ?_⟩, ?_, ?_⟩
  · intro he
    cases hra : c.receiverAlive
    · rfl
    · rw [tellFn] at he
      simp [hra] at he
  · intro hra
    simp [tellFn, hra]
  · intro hra
    exact hI.deadPhase.mpr (Or.inr (hI.recvLive.mp hra))
  · intro hph
    have hra : c.receiverAlive = true := by
      cases hcase : c.receiverAlive
      · exact absurd (hI.recvLive.mp hcase) hph
      · rfl
    simp [tellFn, hra]

theorem tell_errs_iff_receiver_dropped_witness :
    ((tellFn cg8 7).2 = Except.error ActingErr.deadActor ↔ cg8.receiverAlive = false) ∧
    ((tellFn cg1 7).2 = Except.ok () ∧ (tellFn cg1 7).1.mailbox = cg1.mailbox ++ [some 7]) :=
  ⟨(tell_errs_iff_receiver_dropped Mode.graceful cg8 7 reach_cg8).1,
    (tell_errs_iff_receiver_dropped Mode.graceful cg1 7
      (Relation.ReflTransGen.single (by
        have h := Step.tell (M := Nat) (initConfig Mode.graceful) 5 rfl
        have he : (tellFn (initConfig Mode.graceful : Config Nat) 5).1 = cg1 := by decide
        rw [he] at h
        exact h))).2.2 (by decide)⟩

/-- C4: for a disgraceful actor, the worker never enters the drain loop, so
once it observes the termination flag or a stop marker it proceeds to die
with all pending mailbox contents discarded unread; the flag observation
step changes nothing but the program counter; the interpreted trace is
always an initial segment of the told sequence, so no message is ever
interpreted more than once; and after the worker has left the main loop no
step grows the trace. -/
theorem disgraceful_discards_pending_and_interprets_at_most_once {M : Type}
    (c : Config M) (hr : Reachable Mode.disgraceful c) :
    c.phase ≠ Phase.cleanup ∧
    PrefixOf c.trace c.told ∧
    (c.phase = Phase.running → c.shouldDie = true →
      workerStep c = some { c with phase := Phase.dying }) ∧
    (∀ c2, Step c c2 → c.phase ≠ Phase.running → c2.trace = c.trace) := by
  have hI := reachable_inv _ _ hr
  have hmo := reachable_mode _ _ hr
  have hnc : c.phase ≠ Phase.cleanup := hI.noCleanupDis hmo
  refine ⟨hnc, ⟨_, hI.conserve⟩, ?_, ?_⟩
  · intro hph hsd
    obtain ⟨mo, ph, mb, sd, dd, us, ws, ra, tr, td, tp⟩ := c
    dsimp only at hph hsd hmo
    subst hph
    subst hsd
    subst hmo
    rfl
  · intro c2 hs hph
    exact step_trace_frozen c c2 hs hph hnc

theorem disgraceful_discards_pending_and_interprets_at_most_once_witness :
    cd4.phase ≠ Phase.cleanup ∧ PrefixOf cd4.trace cd4.told :=
  ⟨(disgraceful_discards_pending_and_interprets_at_most_once cd4 reach_cd4).1,
    (disgraceful_discards_pending_and_interprets_at_most_once cd4 reach_cd4).2.1⟩

/-- C5: wait blocks until is_dead is observed true and then returns; in
particular if the actor is already dead when wait is called, the very first
guard check succeeds and wait returns immediately, with zero blocks on the
condition variable, so waiting on an already-dead actor does not deadlock. -/
theorem wait_unblocks_iff_dead_observed {M : Type} (c : Config M) (obs : List Bool) :
    (c.isDead = true → waitLoop (c.isDead :: obs) = some 0) ∧
    (∀ n, waitLoop (c.isDead :: obs) = some n →
      (c.isDead :: obs).getD n false = true) := by
  constructor
  · intro h
    rw [h]
    simp [waitLoop]
  · intro n h
    exact waitLoop_observes_dead _ n h

theorem wait_unblocks_iff_dead_observed_witness :
    waitLoop (cg7.isDead :: []) = some 0 :=
  (wait_unblocks_iff_dead_observed cg7 []).1 rfl

/-- C6: kill is idempotent and infallible.  It sets the termination flag; a
second kill leaves the flag exactly as the first left it; kill changes
neither is_dead, nor the interpreted trace, nor the worker phase, nor the
channel endpoints, nor the user messages pending in the queue (it only adds
a stop marker, which is never interpreted); a second kill adds no user
message either; and on an actor whose worker has already exited (the
Receiver is gone) a repeated kill is literally the identity on the state.
As a Lean function, killFn is total: it returns no error. -/
theorem kill_idempotent_and_infallible {M : Type} (c : Config M) :
    (killFn c).shouldDie = true ∧
    (killFn (killFn c)).shouldDie = (killFn c).shouldDie ∧
    (killFn c).isDead = c.isDead ∧
    (killFn c).trace = c.trace ∧
    (killFn c).phase = c.phase ∧
    (killFn c).receiverAlive = c.receiverAlive ∧
    (killFn c).mailbox.filterMap id = c.mailbox.filterMap id ∧
    (killFn (killFn c)).mailbox.filterMap id = (killFn c).mailbox.filterMap id ∧
    (c.receiverAlive = false → killFn (killFn c) = killFn c) := by
  obtain ⟨mo, ph, mb, sd, dd, us, ws, ra, tr, td, tp⟩ := c
  cases ra <;> simp [killFn]

theorem kill_idempotent_and_infallible_witness :
    (killFn cd5).shouldDie = true ∧ killFn (killFn cd5) = killFn cd5 :=
  ⟨(kill_idempotent_and_infallible cd5).1,
    (kill_idempotent_and_infallible cd5).2.2.2.2.2.2.2.2 rfl⟩

/-- C7: the graceful drain polls the mailbox without blocking: a pending
Deliver entry is passed to interpret, a pending Stop marker is discarded
without ending the drain, and a poll that finds the queue empty ends the
drain, after which the worker dies: running the worker from any drain state
interprets exactly the pending user messages, in order, and ends dead with
is_dead set. -/
theorem graceful_drain_characterization {M : Type} (c : Config M)
    (hph : c.phase = Phase.cleanup) :
    (∀ m rest, c.mailbox = some m :: rest →
      workerStep c = some { c with mailbox := rest, trace := c.trace ++ [m] }) ∧
    (∀ rest, c.mailbox = none :: rest → workerStep c = some { c with mailbox := rest }) ∧
    (c.mailbox = [] → workerStep c = some { c with phase := Phase.dying }) ∧
    iterateWorker (c.mailbox.length + 2) c =
      { c with
        phase := Phase.dead
        mailbox := []
        trace := c.trace ++ c.mailbox.filterMap id
        isDead := true
        workerSenderAlive := false } := by
  refine ⟨?_, ?_, ?_, cleanup_drain c.mailbox c hph rfl⟩
  · intro m rest hmb
    rw [workerStep, hph, hmb]
  · intro rest hmb
    rw [workerStep, hph, hmb]
  · intro hmb
    rw [workerStep, hph, hmb]

theorem graceful_drain_characterization_witness :
    workerStep drainDemo =
      some { drainDemo with mailbox := [none, some 2], trace := drainDemo.trace ++ [1] } ∧
    iterateWorker (drainDemo.mailbox.length + 2) drainDemo =
      { drainDemo with
        phase := Phase.dead
        mailbox := []
        trace := drainDemo.trace ++ drainDemo.mailbox.filterMap id
        isDead := true
        workerSenderAlive := false } :=
  ⟨(graceful_drain_characterization drainDemo rfl).1 1 [none, some 2] rfl,
    (graceful_drain_characterization drainDemo rfl).2.2.2⟩

/-- C8: the two shared booleans are monotone one-way under every step of the
system: no step resets the termination flag once set, no step resets
is_dead once set, and the only step that changes is_dead is the false to
true transition performed by die, taking the worker from dying to dead, so
is_dead flips exactly once and dead is terminal. -/
theorem termination_and_death_flags_monotone {M : Type} (c c2 : Config M)
    (hs : Step c c2) :
    (c.shouldDie = true → c2.shouldDie = true) ∧
    (c.isDead = true → c2.isDead = true) ∧
    (c.isDead = false → c2.isDead = true →
      c.phase = Phase.dying ∧ c2.phase = Phase.dead) :=
  match c, c2, hs with
  | c, _, Step.tell c m h => by
      obtain ⟨mo, ph, mb, sd, dd, us, ws, ra, tr, td, tp⟩ := c
      cases ra <;>
        exact ⟨id, fun h1 => by simpa [tellFn] using h1,
          fun h1 h2 => by simp [tellFn] at h1 h2; simp [h1] at h2⟩
  | c, _, Step.kill c h => by
      obtain ⟨mo, ph, mb, sd, dd, us, ws, ra, tr, td, tp⟩ := c
      cases ra <;>
        exact ⟨fun _ => by simp [killFn], fun h1 => by simpa [killFn] using h1,
          fun h1 h2 => by simp [killFn] at h1 h2; simp [h1] at h2⟩
  | c, _, Step.dropHandles c => by
      obtain ⟨mo, ph, mb, sd, dd, us, ws, ra, tr, td, tp⟩ := c
      exact ⟨id, id, fun h1 h2 => by simp at h1 h2; simp [h1] at h2⟩
  | c, _, Step.worker c c2 hw => by
      obtain ⟨mo, ph, mb, sd, dd, us, ws, ra, tr, td, tp⟩ := c
      rcases workerStep_cases _ _ hw with
        ⟨hph, hsd, hc2⟩ | ⟨hph, hsd, m, rest, hmb, hc2⟩ | ⟨hph, hsd, rest, hmb, hc2⟩ |
        ⟨hph, hsd, hmb, hus, hws, hc2⟩ | ⟨hph, m, rest, hmb, hc2⟩ | ⟨hph, rest, hmb, hc2⟩ |
        ⟨hph, hmb, hc2⟩ | ⟨hph, hc2⟩ | ⟨hph, hc2⟩ <;>
        dsimp only at hph <;> subst hc2
      · cases mo <;>
          exact ⟨id, id, fun h1 h2 => by
            have h1b : dd = false := h1
            have h2b : dd = true := h2
            rw [h1b] at h2b
            cases h2b⟩
      · exact ⟨id, id, fun h1 h2 => by
          have h1b : dd = false := h1
          have h2b : dd = true := h2
          rw [h1b] at h2b
          cases h2b⟩
      · cases mo <;>
          exact ⟨id, id, fun h1 h2 => by
            have h1b : dd = false := h1
            have h2b : dd = true := h2
            rw [h1b] at h2b
            cases h2b⟩
      · cases mo <;>
          exact ⟨id, id, fun h1 h2 => by
            have h1b : dd = false := h1
            have h2b : dd = true := h2
            rw [h1b] at h2b
            cases h2b⟩
      · exact ⟨id, id, fun h1 h2 => by
          have h1b : dd = false := h1
          have h2b : dd = true := h2
          rw [h1b] at h2b
          cases h2b⟩
      · exact ⟨id, id, fun h1 h2 => by
          have h1b : dd = false := h1
          have h2b : dd = true := h2
          rw [h1b] at h2b
          cases h2b⟩
      · exact ⟨id, id, fun h1 h2 => by
          have h1b : dd = false := h1
          have h2b : dd = true := h2
          rw [h1b] at h2b
          cases h2b⟩
      · subst hph
        exact ⟨id, fun _ => rfl, fun _ _ => ⟨rfl, rfl⟩⟩
      · exact ⟨id, id, fun h1 h2 => by
          have h1b : dd = false := h1
          have h2b : dd = true := h2
          rw [h1b] at h2b
          cases h2b⟩

theorem termination_and_death_flags_monotone_witness :
    (cg1.shouldDie = true → cg2.shouldDie = true) ∧
    (cg1.isDead = true → cg2.isDead = true) ∧
    (cg1.isDead = false → cg2.isDead = true →
      cg1.phase = Phase.dying ∧ cg2.phase = Phase.dead) :=
  termination_and_death_flags_monotone cg1 cg2 (by
    have h := Step.kill (M := Nat) cg1 rfl
    have he : killFn cg1 = cg2 := by decide
    rw [he] at h
    exact h)

/-- C9: a DeadActor error from tell implies die has already completed: the
Receiver is dropped only when the worker closure returns, which happens
strictly after die set is_dead and notified all waiters, so at any
configuration where tell fails is_dead is true and a subsequent wait on any
aliasing handle observes it and returns immediately without blocking. -/
theorem tell_dead_error_implies_die_completed {M : Type} (mode : Mode)
    (c : Config M) (m : M) (hr : Reachable mode c)
    (he : (tellFn c m).2 = Except.error ActingErr.deadActor) :
    c.isDead = true ∧ ∀ obs : List Bool, waitLoop (c.isDead :: obs) = some 0 := by
  have hI := reachable_inv _ _ hr
  have hra : c.receiverAlive = false := by
    cases hcase : c.receiverAlive
    · rfl
    · rw [tellFn] at he
      simp [hcase] at he
  have hdd : c.isDead = true := hI.deadPhase.mpr (Or.inr (hI.recvLive.mp hra))
  refine ⟨hdd, fun obs => ?_⟩
  rw [hdd]
  simp [waitLoop]

theorem tell_dead_error_implies_die_completed_witness :
    cd5.isDead = true ∧ ∀ obs : List Bool, waitLoop (cd5.isDead :: obs) = some 0 :=
  tell_dead_error_implies_die_completed Mode.disgraceful cd5 9 reach_cd5 rfl

/-- C10: the public constructor Actor::suicidal is the unimplemented macro in
this revision: for every message type it unconditionally panics and never
returns an actor handle. -/
theorem suicidal_unconditionally_panics (M : Type) :
    suicidal M = Except.error "not implemented" :=
  rfl

end Theatre
